import Mathlib

/-!
Verification development for the WaveFunctionCollapser solver
(`src/components/image_canvas_component.rs` and the data model in
`src/components/tile_creation_component.rs`).

The solver state is embedded shallowly:
* machine integers become `Nat`;
* `Vec` becomes `List`;
* the two fixed 10×10 grids become functions `Fin 10 → Fin 10 → _`;
* fallible array indexing becomes `Option`-valued lookup, so a `none`
  result models a Rust panic;
* the thread-local random number generator is threaded explicitly: the
  random seed cell of `get_lowest_entropy` becomes two `Fin 10`
  parameters, and the draw loop of `random_tile` consumes an explicit
  list of `(direction, index)` draws.
Non-algorithmic fields of the component (entity ids, timestamps) and the
rendering code are omitted.
-/

/-- `Direction` from `tile_creation_component.rs`. -/
inductive Direction
  | North
  | South
  | East
  | West
deriving DecidableEq, Repr

/-- `pub type TileConnection = (usize, Direction);` -/
abbrev TileConnection := Nat × Direction

/-- `TileData` from `tile_creation_component.rs` (the four per-direction
adjacency lists plus the stable image index). -/
structure TileData where
  image_index : Nat
  north_valid_tiles : List TileConnection
  south_valid_tiles : List TileConnection
  east_valid_tiles : List TileConnection
  west_valid_tiles : List TileConnection
deriving DecidableEq, Repr

/-- `PossibleConnections` from `image_canvas_component.rs`: the per-cell
candidate set, one list per direction. -/
structure PossibleConnections where
  north_connections : List TileConnection
  south_connections : List TileConnection
  east_connections : List TileConnection
  west_connections : List TileConnection
deriving DecidableEq, Repr

/-- The `Default` value of `PossibleConnections`: four empty vectors. -/
def PossibleConnections.default : PossibleConnections :=
  { north_connections := []
    south_connections := []
    east_connections := []
    west_connections := [] }

/-- `PossibleConnections::total_len`. -/
def PossibleConnections.total_len (p : PossibleConnections) : Nat :=
  p.north_connections.length + p.south_connections.length
    + p.east_connections.length + p.west_connections.length

/-- The algorithmic state of `ImageCanvasComponent`: the tile set used to
build the current constraint grid, the 10×10 constraint grid
(`canvas_connections`) and the 10×10 resolution grid
(`canvas_representation`). -/
structure ImageCanvasComponent where
  current_tile_set : List TileData
  canvas_connections : Fin 10 → Fin 10 → PossibleConnections
  canvas_representation : Fin 10 → Fin 10 → Option TileData

/-- The state built by `ImageCanvasComponent::default()`: empty tile set,
default candidate sets, all resolution cells `None`. -/
def initial_component : ImageCanvasComponent :=
  { current_tile_set := []
    canvas_connections := fun _ _ => PossibleConnections.default
    canvas_representation := fun _ _ => none }

/-- Point update of one grid cell (models `self.grid[r][c] = v`). -/
def updateCell {α : Type} (g : Fin 10 → Fin 10 → α) (r c : Fin 10) (v : α) :
    Fin 10 → Fin 10 → α :=
  fun i j => if i = r ∧ j = c then v else g i j

/-- `ImageCanvasComponent::remove_dupes`: keep first occurrences in order. -/
def remove_dupes (arr : List TileConnection) : List TileConnection :=
  arr.foldl (fun vec elem => if elem ∈ vec then vec else vec ++ [elem]) []

/-- The deduplicated union of every tile's north adjacency list
(`all_north_connections` in `fill_representation_array`). -/
def all_north_connections (tiles : List TileData) : List TileConnection :=
  remove_dupes (tiles.map (fun tile => tile.north_valid_tiles)).flatten

/-- The deduplicated union of every tile's south adjacency list. -/
def all_south_connections (tiles : List TileData) : List TileConnection :=
  remove_dupes (tiles.map (fun tile => tile.south_valid_tiles)).flatten

/-- The deduplicated union of every tile's east adjacency list. -/
def all_east_connections (tiles : List TileData) : List TileConnection :=
  remove_dupes (tiles.map (fun tile => tile.east_valid_tiles)).flatten

/-- The deduplicated union of every tile's west adjacency list. -/
def all_west_connections (tiles : List TileData) : List TileConnection :=
  remove_dupes (tiles.map (fun tile => tile.west_valid_tiles)).flatten

/-- `ImageCanvasComponent::fill_representation_array`: the constraint grid
built from a tile set.  Each interior-facing direction of a cell receives a
copy of the corresponding union list; edge-facing directions stay empty
(the commented-out `else` branches in the source do nothing). -/
def fill_representation_array (tiles : List TileData) :
    Fin 10 → Fin 10 → PossibleConnections :=
  fun row_index col_index =>
    { north_connections :=
        if row_index.val ≠ 0 then all_north_connections tiles else []
      south_connections :=
        if row_index.val ≠ 9 then all_south_connections tiles else []
      west_connections :=
        if col_index.val ≠ 0 then all_west_connections tiles else []
      east_connections :=
        if col_index.val ≠ 9 then all_east_connections tiles else [] }

/-- The grid cells in the row-major order in which the nested loops of
`get_lowest_entropy` visit them. -/
def rowMajorCells : List (Fin 10 × Fin 10) :=
  (List.finRange 10).flatMap (fun r => (List.finRange 10).map (fun c => (r, c)))

/-- The body of the scan loop of `get_lowest_entropy`: replace the tracked
cell exactly when the visited cell has strictly smaller `total_len` than
the tracked cell's candidate set and is unresolved. -/
def scanStep (s : ImageCanvasComponent) (acc cell : Fin 10 × Fin 10) :
    Fin 10 × Fin 10 :=
  if (s.canvas_connections cell.1 cell.2).total_len
        < (s.canvas_connections acc.1 acc.2).total_len
      ∧ s.canvas_representation cell.1 cell.2 = none
  then cell else acc

/-- `ImageCanvasComponent::get_lowest_entropy`.  The random seed cell
`(x, y)` is an explicit parameter; the nested row/column loops are the
row-major fold; the tracked `lowest_val` is always the candidate set of
the tracked position, so only the position is carried. -/
def get_lowest_entropy (s : ImageCanvasComponent) (x y : Fin 10) :
    Option (Fin 10 × Fin 10) :=
  let lowest_position := rowMajorCells.foldl (scanStep s) (x, y)
  if lowest_position = (x, y) ∧ (s.canvas_representation x y).isSome
  then none
  else some lowest_position

/-- `ImageCanvasComponent::do_tile_arrs_overlap`. -/
def do_tile_arrs_overlap (vec1 vec2 : List TileConnection) : Bool :=
  vec1.any (fun elem => vec2.contains elem)

/-- `ImageCanvasComponent::tile_confidence`, counted in quarter points:
the source adds `0.25_f32` per overlapping direction, producing exactly
the values `k * 0.25` for `k ∈ {0,…,4}`, whose `f32` ordering coincides
with the ordering of `k`, so the score is embedded as the `Nat` count of
overlapping directions. -/
def tile_confidence (tile : TileData) (connections : PossibleConnections) : Nat :=
  (if do_tile_arrs_overlap tile.north_valid_tiles connections.north_connections
    then 1 else 0)
  + (if do_tile_arrs_overlap tile.south_valid_tiles connections.south_connections
    then 1 else 0)
  + (if do_tile_arrs_overlap tile.east_valid_tiles connections.east_connections
    then 1 else 0)
  + (if do_tile_arrs_overlap tile.west_valid_tiles connections.west_connections
    then 1 else 0)

/-- Resolve a list of connections into concrete tiles,
`self.current_tile_set[index]` per entry; a `none` models the panic on an
out-of-range tile index. -/
def connections_to_tiles (tile_set : List TileData)
    (conns : List TileConnection) : Option (List TileData) :=
  conns.mapM (fun conn => tile_set.get? conn.1)

/-- `ImageCanvasComponent::get_possible_tiles`: gather, in source order
(north, south, west, east neighbor), the tiles named by each resolved
neighbor's adjacency list for the direction pointing back at `pos`. -/
def get_possible_tiles (s : ImageCanvasComponent) (pos : Fin 10 × Fin 10) :
    Option (List TileData) := do
  let t1 ←
    if h : 0 < pos.1.val then
      match s.canvas_representation
          ⟨pos.1.val - 1, Nat.lt_of_le_of_lt (Nat.sub_le _ _) pos.1.isLt⟩ pos.2 with
      | some tile => connections_to_tiles s.current_tile_set tile.south_valid_tiles
      | none => some []
    else some []
  let t2 ←
    if h : pos.1.val < 9 then
      match s.canvas_representation ⟨pos.1.val + 1, by omega⟩ pos.2 with
      | some tile => connections_to_tiles s.current_tile_set tile.north_valid_tiles
      | none => some []
    else some []
  let t3 ←
    if h : 0 < pos.2.val then
      match s.canvas_representation pos.1
          ⟨pos.2.val - 1, Nat.lt_of_le_of_lt (Nat.sub_le _ _) pos.2.isLt⟩ with
      | some tile => connections_to_tiles s.current_tile_set tile.east_valid_tiles
      | none => some []
    else some []
  let t4 ←
    if h : pos.2.val < 9 then
      match s.canvas_representation pos.1 ⟨pos.2.val + 1, by omega⟩ with
      | some tile => connections_to_tiles s.current_tile_set tile.west_valid_tiles
      | none => some []
    else some []
  some (t1 ++ t2 ++ t3 ++ t4)

/-- The draw loop of `PossibleConnections::random_tile`: each draw picks a
direction bucket and an in-bucket position; empty buckets re-roll with the
next draw.  Running out of draws, or a draw naming an out-of-range
position or tile index, yields `none`. -/
def random_tile_loop (p : PossibleConnections) (tiles : List TileData) :
    List (Fin 4 × Nat) → Option TileData
  | [] => none
  | (dir, index) :: rest =>
    let arr :=
      if dir.val = 0 then p.north_connections
      else if dir.val = 1 then p.south_connections
      else if dir.val = 2 then p.east_connections
      else p.west_connections
    if arr.isEmpty then random_tile_loop p tiles rest
    else do
      let conn ← arr.get? index
      tiles.get? conn.1

/-- `PossibleConnections::random_tile`: if the candidate set equals the
all-empty default, return `tiles[0]`; otherwise run the draw loop. -/
def random_tile (p : PossibleConnections) (tiles : List TileData)
    (draws : List (Fin 4 × Nat)) : Option TileData :=
  if p = PossibleConnections.default then tiles.get? 0
  else random_tile_loop p tiles draws

/-- The confidence scan of `collapse_tile`: start from
`possible_tiles[0]`, replace only on strictly greater confidence, so the
first tile attaining the maximum is kept. -/
def pick_most_confident (possible_tiles : List TileData)
    (tile_connections : PossibleConnections) : Option TileData :=
  match possible_tiles with
  | [] => none
  | first :: _ =>
    some (possible_tiles.foldl
      (fun most_confident tile =>
        if tile_confidence most_confident tile_connections
            < tile_confidence tile tile_connections
        then tile else most_confident)
      first)

/-- The first neighbor write of `collapse_tile`
(`if pos.0 > 0 { ...[pos.0 - 1][pos.1].south_connections = vec![(idx, North)] }`). -/
def narrow_north_neighbor (g : Fin 10 → Fin 10 → PossibleConnections)
    (pos : Fin 10 × Fin 10) (idx : Nat) :
    Fin 10 → Fin 10 → PossibleConnections :=
  if _h : 0 < pos.1.val then
    let nb : Fin 10 := ⟨pos.1.val - 1, Nat.lt_of_le_of_lt (Nat.sub_le _ _) pos.1.isLt⟩
    updateCell g nb pos.2
      { g nb pos.2 with south_connections := [(idx, Direction.North)] }
  else g

/-- The second neighbor write of `collapse_tile`
(`if pos.0 < 9 { ...[pos.0 + 1][pos.1].north_connections = vec![(idx, South)] }`). -/
def narrow_south_neighbor (g : Fin 10 → Fin 10 → PossibleConnections)
    (pos : Fin 10 × Fin 10) (idx : Nat) :
    Fin 10 → Fin 10 → PossibleConnections :=
  if h : pos.1.val < 9 then
    let nb : Fin 10 := ⟨pos.1.val + 1, by omega⟩
    updateCell g nb pos.2
      { g nb pos.2 with north_connections := [(idx, Direction.South)] }
  else g

/-- The third neighbor write of `collapse_tile`
(`if pos.1 > 0 { ...[pos.0][pos.1 - 1].east_connections = vec![(idx, West)] }`). -/
def narrow_west_neighbor (g : Fin 10 → Fin 10 → PossibleConnections)
    (pos : Fin 10 × Fin 10) (idx : Nat) :
    Fin 10 → Fin 10 → PossibleConnections :=
  if _h : 0 < pos.2.val then
    let nb : Fin 10 := ⟨pos.2.val - 1, Nat.lt_of_le_of_lt (Nat.sub_le _ _) pos.2.isLt⟩
    updateCell g pos.1 nb
      { g pos.1 nb with east_connections := [(idx, Direction.West)] }
  else g

/-- The fourth neighbor write of `collapse_tile`
(`if pos.1 < 9 { ...[pos.0][pos.1 + 1].west_connections = vec![(idx, East)] }`). -/
def narrow_east_neighbor (g : Fin 10 → Fin 10 → PossibleConnections)
    (pos : Fin 10 × Fin 10) (idx : Nat) :
    Fin 10 → Fin 10 → PossibleConnections :=
  if h : pos.2.val < 9 then
    let nb : Fin 10 := ⟨pos.2.val + 1, by omega⟩
    updateCell g pos.1 nb
      { g pos.1 nb with west_connections := [(idx, Direction.East)] }
  else g

/-- The four neighbor writes at the end of `collapse_tile`, performed in
source order: north, south, west, east neighbor. -/
def narrow_neighbors (g : Fin 10 → Fin 10 → PossibleConnections)
    (pos : Fin 10 × Fin 10) (idx : Nat) :
    Fin 10 → Fin 10 → PossibleConnections :=
  narrow_east_neighbor
    (narrow_west_neighbor
      (narrow_south_neighbor
        (narrow_north_neighbor g pos idx) pos idx) pos idx) pos idx

/-- `ImageCanvasComponent::collapse_tile`: choose the tile (weighted
random fallback when no resolved neighbor contributes candidates, first
maximal-confidence candidate otherwise) and perform the four neighbor
writes; returns the chosen tile together with the new constraint grid. -/
def collapse_tile (s : ImageCanvasComponent)
    (tile_connections : PossibleConnections) (pos : Fin 10 × Fin 10)
    (draws : List (Fin 4 × Nat)) :
    Option (TileData × (Fin 10 → Fin 10 → PossibleConnections)) :=
  match get_possible_tiles s pos with
  | none => none
  | some possible_tiles =>
    let chosen :=
      if possible_tiles.isEmpty then
        random_tile tile_connections s.current_tile_set draws
      else
        pick_most_confident possible_tiles tile_connections
    match chosen with
    | none => none
    | some most_likely_tile =>
      some (most_likely_tile,
        narrow_neighbors s.canvas_connections pos most_likely_tile.image_index)

/-- The tile-set resynchronization at the top of
`ImageCanvasComponent::update`: on structural inequality, rebuild the
constraint grid and remember the new tile set; nothing else changes. -/
def sync_tile_set (tiles : List TileData) (s : ImageCanvasComponent) :
    ImageCanvasComponent :=
  if tiles ≠ s.current_tile_set then
    { s with
      canvas_connections := fill_representation_array tiles
      current_tile_set := tiles }
  else s

/-- One invocation of `ImageCanvasComponent::update` (the solver step):
resynchronize on tile-set change, skip when the tile set is empty,
otherwise select the lowest-entropy cell, collapse it, and commit the
result into the resolution grid. -/
def step (tiles : List TileData) (s : ImageCanvasComponent) (x y : Fin 10)
    (draws : List (Fin 4 × Nat)) : Option ImageCanvasComponent :=
  let s1 := sync_tile_set tiles s
  if s1.current_tile_set.isEmpty then some s1
  else
    match get_lowest_entropy s1 x y with
    | none => some s1
    | some lowest_entropy_pos =>
      let lowest_entropy_tile :=
        s1.canvas_connections lowest_entropy_pos.1 lowest_entropy_pos.2
      match collapse_tile s1 lowest_entropy_tile lowest_entropy_pos draws with
      | none => none
      | some result =>
        some { s1 with
               canvas_connections := result.2
               canvas_representation :=
                 updateCell s1.canvas_representation
                   lowest_entropy_pos.1 lowest_entropy_pos.2 (some result.1) }

/-- Number of resolved cells of a resolution grid. -/
def countRep (rep : Fin 10 → Fin 10 → Option TileData) : Nat :=
  (Finset.univ.filter
    (fun p : Fin 10 × Fin 10 => (rep p.1 p.2).isSome = true)).card

/-- Number of resolved cells of a component state. -/
def resolvedCount (s : ImageCanvasComponent) : Nat :=
  countRep s.canvas_representation

/-- Entropy of the cell `p`: the `total_len` of its candidate set. -/
def ent (s : ImageCanvasComponent) (p : Fin 10 × Fin 10) : Nat :=
  (s.canvas_connections p.1 p.2).total_len

/-- The cell `p` is unresolved. -/
def unres (s : ImageCanvasComponent) (p : Fin 10 × Fin 10) : Prop :=
  s.canvas_representation p.1 p.2 = none

/-- A tile with index 0 and four empty adjacency lists. -/
def tileA : TileData := ⟨0, [], [], [], []⟩

/-- A tile with index 1 and four empty adjacency lists. -/
def tileB : TileData := ⟨1, [], [], [], []⟩

/-- A tile with index 0 and one entry in each adjacency list. -/
def tileC : TileData :=
  ⟨0, [(0, Direction.North)], [(0, Direction.South)],
    [(0, Direction.East)], [(0, Direction.West)]⟩

/-- A candidate set with a single north entry (`total_len` 1). -/
def pcOne : PossibleConnections :=
  ⟨[(0, Direction.North)], [], [], []⟩

/-- A state whose tile set is `[tileB]` and whose resolution grid has the
single committed tile `tileB` at cell (5,5). -/
def state_c1 : ImageCanvasComponent :=
  { current_tile_set := [tileB]
    canvas_connections := fun _ _ => PossibleConnections.default
    canvas_representation := fun r c =>
      if r = 5 ∧ c = 5 then some tileB else none }

/-- A state where every cell except (5,5) is resolved and every candidate
set is the all-empty default, so every cell has entropy 0. -/
def state_c2 : ImageCanvasComponent :=
  { current_tile_set := [tileB]
    canvas_connections := fun _ _ => PossibleConnections.default
    canvas_representation := fun r c =>
      if r = 5 ∧ c = 5 then none else some tileB }

/-- A state where every cell except (5,5) is resolved and the unresolved
cell (5,5) has strictly smaller entropy (0) than every other cell (1). -/
def state_c2w : ImageCanvasComponent :=
  { current_tile_set := [tileB]
    canvas_connections := fun r c =>
      if r = 5 ∧ c = 5 then PossibleConnections.default else pcOne
    canvas_representation := fun r c =>
      if r = 5 ∧ c = 5 then none else some tileB }

/-- A fully resolved state. -/
def state_c3 : ImageCanvasComponent :=
  { current_tile_set := [tileB]
    canvas_connections := fun _ _ => PossibleConnections.default
    canvas_representation := fun _ _ => some tileB }

/-- A fresh state over the one-tile set `[tileA]`. -/
def state_c4 : ImageCanvasComponent :=
  { current_tile_set := [tileA]
    canvas_connections := fun _ _ => PossibleConnections.default
    canvas_representation := fun _ _ => none }

/-- The constraint grid produced by collapsing tile `tileA` at (1,1) in
`state_c4`. -/
def grid_c4 : Fin 10 → Fin 10 → PossibleConnections :=
  narrow_neighbors state_c4.canvas_connections (1, 1) tileA.image_index

/-- The state reached from `initial_component` by one step over `[tileA]`
with seed cell (0,0): the constraint grid is built from `[tileA]`, tile
`tileA` is committed at (0,0), and its neighbors are narrowed. -/
def state_c6 : ImageCanvasComponent :=
  { current_tile_set := [tileA]
    canvas_connections :=
      narrow_neighbors (fill_representation_array [tileA]) (0, 0) tileA.image_index
    canvas_representation :=
      updateCell (fun _ _ => none) 0 0 (some tileA) }

lemma mem_rowMajorCells (p : Fin 10 × Fin 10) : p ∈ rowMajorCells := by
  rcases p with ⟨r, c⟩
  unfold rowMajorCells
  rw [List.mem_flatMap]
  exact ⟨r, List.mem_finRange r, List.mem_map.mpr ⟨c, List.mem_finRange c, rfl⟩⟩

/-- Invariant of the scan loop of `get_lowest_entropy`: starting from the
baseline `a`, the fold either keeps `a` (and then no unresolved visited
cell beats `a`'s entropy), or lands on an unresolved visited cell of
strictly smaller entropy that is minimal among unresolved visited cells
and strictly beats every unresolved cell visited before it. -/
lemma scan_foldl_spec (s : ImageCanvasComponent) :
    ∀ (L : List (Fin 10 × Fin 10)) (a : Fin 10 × Fin 10),
      (L.foldl (scanStep s) a = a ∧
        ∀ p ∈ L, unres s p → ent s a ≤ ent s p) ∨
      (unres s (L.foldl (scanStep s) a) ∧
        ent s (L.foldl (scanStep s) a) < ent s a ∧
        (∀ p ∈ L, unres s p → ent s (L.foldl (scanStep s) a) ≤ ent s p) ∧
        ∃ l1 l2, L = l1 ++ (L.foldl (scanStep s) a) :: l2 ∧
          ∀ p ∈ l1, unres s p → ent s (L.foldl (scanStep s) a) < ent s p) := by
  intro L
  induction L with
  | nil =>
    intro a
    left
    exact ⟨rfl, by simp⟩
  | cons q L ih =>
    intro a
    by_cases hc : ent s q < ent s a ∧ unres s q
    · have hstep : scanStep s a q = q := by
        unfold ent unres at hc
        unfold scanStep
        simp [hc.1, hc.2]
      have hfold : (q :: L).foldl (scanStep s) a = L.foldl (scanStep s) q := by
        rw [List.foldl_cons, hstep]
      rcases ih q with ⟨heq, hbound⟩ | ⟨hunres, hlt, hbound, l1, l2, hsplit, hearly⟩
      · right
        rw [hfold, heq]
        refine ⟨hc.2, hc.1, ?_, [], L, by simp, by simp⟩
        intro p hp hu
        rcases List.mem_cons.mp hp with hpq | hpL
        · subst hpq; exact Nat.le_refl _
        · exact hbound p hpL hu
      · right
        rw [hfold]
        refine ⟨hunres, Nat.lt_trans hlt hc.1, ?_, q :: l1, l2, ?_, ?_⟩
        · intro p hp hu
          rcases List.mem_cons.mp hp with hpq | hpL
          · subst hpq; exact Nat.le_of_lt hlt
          · exact hbound p hpL hu
        · rw [List.cons_append, ← hsplit]
        · intro p hp hu
          rcases List.mem_cons.mp hp with hpq | hpl1
          · subst hpq; exact hlt
          · exact hearly p hpl1 hu
    · have hstep : scanStep s a q = a := by
        unfold ent unres at hc
        unfold scanStep
        by_cases h1 : (s.canvas_connections q.1 q.2).total_len
            < (s.canvas_connections a.1 a.2).total_len
        · by_cases h2 : s.canvas_representation q.1 q.2 = none
          · exact absurd ⟨h1, h2⟩ hc
          · simp [h2]
        · simp [h1]
      have hqa : unres s q → ent s a ≤ ent s q := by
        intro hu
        by_contra hlt
        exact hc ⟨Nat.lt_of_not_le hlt, hu⟩
      have hfold : (q :: L).foldl (scanStep s) a = L.foldl (scanStep s) a := by
        rw [List.foldl_cons, hstep]
      rcases ih a with ⟨heq, hbound⟩ | ⟨hunres, hlt, hbound, l1, l2, hsplit, hearly⟩
      · left
        rw [hfold, heq]
        refine ⟨rfl, ?_⟩
        intro p hp hu
        rcases List.mem_cons.mp hp with hpq | hpL
        · subst hpq; exact hqa hu
        · exact hbound p hpL hu
      · right
        rw [hfold]
        refine ⟨hunres, hlt, ?_, q :: l1, l2, ?_, ?_⟩
        · intro p hp hu
          rcases List.mem_cons.mp hp with hpq | hpL
          · subst hpq; exact Nat.le_of_lt (Nat.lt_of_lt_of_le hlt (hqa hu))
          · exact hbound p hpL hu
        · rw [List.cons_append, ← hsplit]
        · intro p hp hu
          rcases List.mem_cons.mp hp with hpq | hpl1
          · subst hpq; exact Nat.lt_of_lt_of_le hlt (hqa hu)
          · exact hearly p hpl1 hu

/-- Any position returned by `get_lowest_entropy` is unresolved. -/
lemma get_lowest_entropy_some_unres (s : ImageCanvasComponent) (x y : Fin 10)
    (p : Fin 10 × Fin 10) (h : get_lowest_entropy s x y = some p) :
    s.canvas_representation p.1 p.2 = none := by
  unfold get_lowest_entropy at h
  by_cases hcond : rowMajorCells.foldl (scanStep s) (x, y) = (x, y)
      ∧ (s.canvas_representation x y).isSome
  · simp [hcond] at h
  · simp only [if_neg hcond] at h
    have hp : rowMajorCells.foldl (scanStep s) (x, y) = p := by
      exact Option.some.inj h
    rcases scan_foldl_spec s rowMajorCells (x, y) with ⟨heq, _⟩ | ⟨hunres, _, _, _⟩
    · rw [heq] at hp
      subst hp
      rcases Option.eq_none_or_eq_some (s.canvas_representation x y) with hn | ⟨t, ht⟩
      · exact hn
      · rw [heq] at hcond
        exact absurd ⟨rfl, by simp [ht]⟩ hcond
    · rw [hp] at hunres
      exact hunres

lemma updateCell_same {α : Type} (g : Fin 10 → Fin 10 → α) (r c : Fin 10) (v : α) :
    updateCell g r c v r c = v := by
  simp [updateCell]

lemma updateCell_other {α : Type} (g : Fin 10 → Fin 10 → α) (r c : Fin 10) (v : α)
    (i j : Fin 10) (h : ¬(i = r ∧ j = c)) : updateCell g r c v i j = g i j := by
  simp only [updateCell, if_neg h]

lemma narrow_north_neighbor_at (g : Fin 10 → Fin 10 → PossibleConnections)
    (pos : Fin 10 × Fin 10) (idx : Nat) (q : Fin 10 × Fin 10)
    (h1 : q.1.val + 1 = pos.1.val) (h2 : q.2 = pos.2) :
    narrow_north_neighbor g pos idx q.1 q.2 =
      { g q.1 q.2 with south_connections := [(idx, Direction.North)] } := by
  have hpos : 0 < pos.1.val := by omega
  simp only [narrow_north_neighbor, dif_pos hpos, updateCell]
  split_ifs with hcond
  · rw [← hcond.1, ← hcond.2]
  · refine absurd (And.intro (Fin.ext ?_) h2) hcond
    show q.1.val = pos.1.val - 1
    omega

lemma narrow_north_neighbor_frame (g : Fin 10 → Fin 10 → PossibleConnections)
    (pos : Fin 10 × Fin 10) (idx : Nat) (q : Fin 10 × Fin 10)
    (h : ¬(q.1.val + 1 = pos.1.val ∧ q.2 = pos.2)) :
    narrow_north_neighbor g pos idx q.1 q.2 = g q.1 q.2 := by
  unfold narrow_north_neighbor
  by_cases hpos : 0 < pos.1.val
  · simp only [dif_pos hpos, updateCell]
    split_ifs with hcond
    · have hv : q.1.val = pos.1.val - 1 := congrArg Fin.val hcond.1
      exact absurd ⟨by omega, hcond.2⟩ h
    · rfl
  · rw [dif_neg hpos]

lemma narrow_south_neighbor_at (g : Fin 10 → Fin 10 → PossibleConnections)
    (pos : Fin 10 × Fin 10) (idx : Nat) (q : Fin 10 × Fin 10)
    (h1 : q.1.val = pos.1.val + 1) (h2 : q.2 = pos.2) :
    narrow_south_neighbor g pos idx q.1 q.2 =
      { g q.1 q.2 with north_connections := [(idx, Direction.South)] } := by
  have hpos : pos.1.val < 9 := by
    have := q.1.isLt
    omega
  simp only [narrow_south_neighbor, dif_pos hpos, updateCell]
  split_ifs with hcond
  · rw [← hcond.1, ← hcond.2]
  · refine absurd (And.intro (Fin.ext ?_) h2) hcond
    show q.1.val = pos.1.val + 1
    omega

lemma narrow_south_neighbor_frame (g : Fin 10 → Fin 10 → PossibleConnections)
    (pos : Fin 10 × Fin 10) (idx : Nat) (q : Fin 10 × Fin 10)
    (h : ¬(q.1.val = pos.1.val + 1 ∧ q.2 = pos.2)) :
    narrow_south_neighbor g pos idx q.1 q.2 = g q.1 q.2 := by
  unfold narrow_south_neighbor
  by_cases hpos : pos.1.val < 9
  · simp only [dif_pos hpos, updateCell]
    split_ifs with hcond
    · have hv : q.1.val = pos.1.val + 1 := congrArg Fin.val hcond.1
      exact absurd ⟨hv, hcond.2⟩ h
    · rfl
  · rw [dif_neg hpos]

lemma narrow_west_neighbor_at (g : Fin 10 → Fin 10 → PossibleConnections)
    (pos : Fin 10 × Fin 10) (idx : Nat) (q : Fin 10 × Fin 10)
    (h1 : q.2.val + 1 = pos.2.val) (h2 : q.1 = pos.1) :
    narrow_west_neighbor g pos idx q.1 q.2 =
      { g q.1 q.2 with east_connections := [(idx, Direction.West)] } := by
  have hpos : 0 < pos.2.val := by omega
  simp only [narrow_west_neighbor, dif_pos hpos, updateCell]
  split_ifs with hcond
  · rw [← hcond.1, ← hcond.2]
  · refine absurd (And.intro h2 (Fin.ext ?_)) hcond
    show q.2.val = pos.2.val - 1
    omega

lemma narrow_west_neighbor_frame (g : Fin 10 → Fin 10 → PossibleConnections)
    (pos : Fin 10 × Fin 10) (idx : Nat) (q : Fin 10 × Fin 10)
    (h : ¬(q.2.val + 1 = pos.2.val ∧ q.1 = pos.1)) :
    narrow_west_neighbor g pos idx q.1 q.2 = g q.1 q.2 := by
  unfold narrow_west_neighbor
  by_cases hpos : 0 < pos.2.val
  · simp only [dif_pos hpos, updateCell]
    split_ifs with hcond
    · have hv : q.2.val = pos.2.val - 1 := congrArg Fin.val hcond.2
      exact absurd ⟨by omega, hcond.1⟩ h
    · rfl
  · rw [dif_neg hpos]

lemma narrow_east_neighbor_at (g : Fin 10 → Fin 10 → PossibleConnections)
    (pos : Fin 10 × Fin 10) (idx : Nat) (q : Fin 10 × Fin 10)
    (h1 : q.2.val = pos.2.val + 1) (h2 : q.1 = pos.1) :
    narrow_east_neighbor g pos idx q.1 q.2 =
      { g q.1 q.2 with west_connections := [(idx, Direction.East)] } := by
  have hpos : pos.2.val < 9 := by
    have := q.2.isLt
    omega
  simp only [narrow_east_neighbor, dif_pos hpos, updateCell]
  split_ifs with hcond
  · rw [← hcond.1, ← hcond.2]
  · refine absurd (And.intro h2 (Fin.ext ?_)) hcond
    show q.2.val = pos.2.val + 1
    omega

lemma narrow_east_neighbor_frame (g : Fin 10 → Fin 10 → PossibleConnections)
    (pos : Fin 10 × Fin 10) (idx : Nat) (q : Fin 10 × Fin 10)
    (h : ¬(q.2.val = pos.2.val + 1 ∧ q.1 = pos.1)) :
    narrow_east_neighbor g pos idx q.1 q.2 = g q.1 q.2 := by
  unfold narrow_east_neighbor
  by_cases hpos : pos.2.val < 9
  · simp only [dif_pos hpos, updateCell]
    split_ifs with hcond
    · have hv : q.2.val = pos.2.val + 1 := congrArg Fin.val hcond.2
      exact absurd ⟨hv, hcond.1⟩ h
    · rfl
  · rw [dif_neg hpos]

lemma narrow_neighbors_north (g : Fin 10 → Fin 10 → PossibleConnections)
    (pos : Fin 10 × Fin 10) (idx : Nat) (q : Fin 10 × Fin 10)
    (h1 : q.1.val + 1 = pos.1.val) (h2 : q.2 = pos.2) :
    narrow_neighbors g pos idx q.1 q.2 =
      { g q.1 q.2 with south_connections := [(idx, Direction.North)] } := by
  have hs : ¬(q.1.val = pos.1.val + 1 ∧ q.2 = pos.2) := by
    intro hcon
    have := hcon.1
    omega
  have hw : ¬(q.2.val + 1 = pos.2.val ∧ q.1 = pos.1) := by
    intro hcon
    have := congrArg Fin.val hcon.2
    omega
  have he : ¬(q.2.val = pos.2.val + 1 ∧ q.1 = pos.1) := by
    intro hcon
    have := congrArg Fin.val hcon.2
    omega
  unfold narrow_neighbors
  rw [narrow_east_neighbor_frame _ _ _ _ he, narrow_west_neighbor_frame _ _ _ _ hw,
    narrow_south_neighbor_frame _ _ _ _ hs, narrow_north_neighbor_at _ _ _ _ h1 h2]

lemma narrow_neighbors_south (g : Fin 10 → Fin 10 → PossibleConnections)
    (pos : Fin 10 × Fin 10) (idx : Nat) (q : Fin 10 × Fin 10)
    (h1 : q.1.val = pos.1.val + 1) (h2 : q.2 = pos.2) :
    narrow_neighbors g pos idx q.1 q.2 =
      { g q.1 q.2 with north_connections := [(idx, Direction.South)] } := by
  have hw : ¬(q.2.val + 1 = pos.2.val ∧ q.1 = pos.1) := by
    intro hcon
    have := congrArg Fin.val hcon.2
    omega
  have he : ¬(q.2.val = pos.2.val + 1 ∧ q.1 = pos.1) := by
    intro hcon
    have := congrArg Fin.val hcon.2
    omega
  unfold narrow_neighbors
  rw [narrow_east_neighbor_frame _ _ _ _ he, narrow_west_neighbor_frame _ _ _ _ hw,
    narrow_south_neighbor_at _ _ _ _ h1 h2]
  have hn : ¬(q.1.val + 1 = pos.1.val ∧ q.2 = pos.2) := by
    intro hcon
    have := hcon.1
    omega
  rw [narrow_north_neighbor_frame _ _ _ _ hn]

lemma narrow_neighbors_west (g : Fin 10 → Fin 10 → PossibleConnections)
    (pos : Fin 10 × Fin 10) (idx : Nat) (q : Fin 10 × Fin 10)
    (h1 : q.2.val + 1 = pos.2.val) (h2 : q.1 = pos.1) :
    narrow_neighbors g pos idx q.1 q.2 =
      { g q.1 q.2 with east_connections := [(idx, Direction.West)] } := by
  have he : ¬(q.2.val = pos.2.val + 1 ∧ q.1 = pos.1) := by
    intro hcon
    have := hcon.1
    omega
  have hn : ¬(q.1.val + 1 = pos.1.val ∧ q.2 = pos.2) := by
    intro hcon
    have := congrArg Fin.val h2
    omega
  have hs : ¬(q.1.val = pos.1.val + 1 ∧ q.2 = pos.2) := by
    intro hcon
    have := congrArg Fin.val h2
    have := hcon.1
    omega
  unfold narrow_neighbors
  rw [narrow_east_neighbor_frame _ _ _ _ he, narrow_west_neighbor_at _ _ _ _ h1 h2,
    narrow_south_neighbor_frame _ _ _ _ hs, narrow_north_neighbor_frame _ _ _ _ hn]

lemma narrow_neighbors_east (g : Fin 10 → Fin 10 → PossibleConnections)
    (pos : Fin 10 × Fin 10) (idx : Nat) (q : Fin 10 × Fin 10)
    (h1 : q.2.val = pos.2.val + 1) (h2 : q.1 = pos.1) :
    narrow_neighbors g pos idx q.1 q.2 =
      { g q.1 q.2 with west_connections := [(idx, Direction.East)] } := by
  have hn : ¬(q.1.val + 1 = pos.1.val ∧ q.2 = pos.2) := by
    intro hcon
    have := congrArg Fin.val h2
    omega
  have hs : ¬(q.1.val = pos.1.val + 1 ∧ q.2 = pos.2) := by
    intro hcon
    have := congrArg Fin.val h2
    have := hcon.1
    omega
  unfold narrow_neighbors
  rw [narrow_east_neighbor_at _ _ _ _ h1 h2]
  have hw : ¬(q.2.val + 1 = pos.2.val ∧ q.1 = pos.1) := by
    intro hcon
    have := hcon.1
    omega
  rw [narrow_west_neighbor_frame _ _ _ _ hw,
    narrow_south_neighbor_frame _ _ _ _ hs, narrow_north_neighbor_frame _ _ _ _ hn]

lemma narrow_neighbors_frame (g : Fin 10 → Fin 10 → PossibleConnections)
    (pos : Fin 10 × Fin 10) (idx : Nat) (q : Fin 10 × Fin 10)
    (hn : ¬(q.1.val + 1 = pos.1.val ∧ q.2 = pos.2))
    (hs : ¬(q.1.val = pos.1.val + 1 ∧ q.2 = pos.2))
    (hw : ¬(q.2.val + 1 = pos.2.val ∧ q.1 = pos.1))
    (he : ¬(q.2.val = pos.2.val + 1 ∧ q.1 = pos.1)) :
    narrow_neighbors g pos idx q.1 q.2 = g q.1 q.2 := by
  unfold narrow_neighbors
  rw [narrow_east_neighbor_frame _ _ _ _ he, narrow_west_neighbor_frame _ _ _ _ hw,
    narrow_south_neighbor_frame _ _ _ _ hs, narrow_north_neighbor_frame _ _ _ _ hn]

/-- Inversion of a successful `collapse_tile`: the returned constraint
grid is exactly the four neighbor writes applied to the input grid with
the returned tile's index. -/
lemma collapse_tile_some (s : ImageCanvasComponent)
    (tile_connections : PossibleConnections) (pos : Fin 10 × Fin 10)
    (draws : List (Fin 4 × Nat)) (t : TileData)
    (g' : Fin 10 → Fin 10 → PossibleConnections)
    (h : collapse_tile s tile_connections pos draws = some (t, g')) :
    g' = narrow_neighbors s.canvas_connections pos t.image_index := by
  unfold collapse_tile at h
  rcases hp : get_possible_tiles s pos with _ | possible_tiles
  · rw [hp] at h
    exact absurd h (by simp)
  · rw [hp] at h
    simp only at h
    rcases hc : (if possible_tiles.isEmpty then
        random_tile tile_connections s.current_tile_set draws
      else pick_most_confident possible_tiles tile_connections) with _ | tile
    · rw [hc] at h
      exact absurd h (by simp)
    · rw [hc] at h
      simp only [Option.some.injEq, Prod.mk.injEq] at h
      rw [← h.1, ← h.2]

lemma sync_tile_set_representation (tiles : List TileData)
    (s : ImageCanvasComponent) :
    (sync_tile_set tiles s).canvas_representation = s.canvas_representation := by
  unfold sync_tile_set
  split <;> rfl

lemma sync_tile_set_empty (s : ImageCanvasComponent) :
    (sync_tile_set [] s).current_tile_set = [] := by
  unfold sync_tile_set
  split
  · rfl
  · rename_i hne
    push_neg at hne
    exact hne.symm

lemma countRep_update (rep : Fin 10 → Fin 10 → Option TileData)
    (p : Fin 10 × Fin 10) (t : TileData) (h : rep p.1 p.2 = none) :
    countRep (updateCell rep p.1 p.2 (some t)) = countRep rep + 1 := by
  unfold countRep
  have hins : (Finset.univ.filter
      (fun q : Fin 10 × Fin 10 =>
        ((updateCell rep p.1 p.2 (some t)) q.1 q.2).isSome = true))
      = insert p (Finset.univ.filter
        (fun q : Fin 10 × Fin 10 => (rep q.1 q.2).isSome = true)) := by
    ext q
    simp only [Finset.mem_filter, Finset.mem_insert, Finset.mem_univ, true_and,
      updateCell]
    by_cases hq : q = p
    · subst hq
      simp
    · have hne : ¬(q.1 = p.1 ∧ q.2 = p.2) := by
        intro hcon
        exact hq (Prod.ext hcon.1 hcon.2)
      simp [hne, hq]
  rw [hins, Finset.card_insert_of_not_mem]
  simp [h]

/-- Inversion of a successful `step`: either nothing was committed (the
step returned the resynchronized state), or one selection and one
collapse happened. -/
lemma step_cases (tiles : List TileData) (s : ImageCanvasComponent)
    (x y : Fin 10) (draws : List (Fin 4 × Nat)) (s' : ImageCanvasComponent)
    (hstep : step tiles s x y draws = some s') :
    s' = sync_tile_set tiles s ∨
    ∃ pos result,
      get_lowest_entropy (sync_tile_set tiles s) x y = some pos ∧
      collapse_tile (sync_tile_set tiles s)
        ((sync_tile_set tiles s).canvas_connections pos.1 pos.2) pos draws
        = some result ∧
      s' = { sync_tile_set tiles s with
             canvas_connections := result.2
             canvas_representation :=
               updateCell (sync_tile_set tiles s).canvas_representation
                 pos.1 pos.2 (some result.1) } := by
  simp only [step] at hstep
  by_cases hempty : (sync_tile_set tiles s).current_tile_set.isEmpty = true
  · rw [if_pos hempty] at hstep
    left
    exact (Option.some.inj hstep).symm
  · rw [if_neg hempty] at hstep
    rcases hsel : get_lowest_entropy (sync_tile_set tiles s) x y with _ | pos
    · rw [hsel] at hstep
      left
      exact (Option.some.inj hstep).symm
    · rw [hsel] at hstep
      dsimp only at hstep
      rcases hc : collapse_tile (sync_tile_set tiles s)
          ((sync_tile_set tiles s).canvas_connections pos.1 pos.2) pos draws
          with _ | result
      · rw [hc] at hstep
        exact absurd hstep (by simp)
      · rw [hc] at hstep
        right
        exact ⟨pos, result, rfl, hc, (Option.some.inj hstep).symm⟩

lemma fill_total_len (tiles : List TileData) (r c : Fin 10) :
    (fill_representation_array tiles r c).total_len =
      (if r.val ≠ 0 then (all_north_connections tiles).length else 0)
      + (if r.val ≠ 9 then (all_south_connections tiles).length else 0)
      + (if c.val ≠ 9 then (all_east_connections tiles).length else 0)
      + (if c.val ≠ 0 then (all_west_connections tiles).length else 0) := by
  unfold fill_representation_array PossibleConnections.total_len
  split_ifs <;> simp

set_option maxRecDepth 100000 in
/-- C1 — counterexample.  The claim says a step with a structurally
different tile set resets every resolution cell to `None`.  On the code,
stepping `state_c1` (tile set `[tileB]`, tile `tileB` committed at (5,5))
with the different tile set `[tileA]` rebuilds the constraint grid but
leaves the old committed tile in place: cell (5,5) still holds `tileB`
after the step, so the resolution grid is not cleared. -/
theorem c1_counterexample :
    ((step [tileA] state_c1 0 0 []).map
      (fun s => s.canvas_representation 5 5)) = some (some tileB) ∧
    (some tileB : Option TileData) ≠ none := by
  constructor
  · decide
  · decide

/-- C1 — amended.  When a step is invoked with a tile set structurally
different from the current one, the constraint grid is fully rebuilt from
the new tile set and the new tile set is remembered, but the resolution
grid is left unchanged: prior resolution state is NOT discarded. -/
theorem c1_theorem (tiles : List TileData) (s : ImageCanvasComponent)
    (h : tiles ≠ s.current_tile_set) :
    (sync_tile_set tiles s).canvas_connections = fill_representation_array tiles ∧
    (sync_tile_set tiles s).canvas_representation = s.canvas_representation ∧
    (sync_tile_set tiles s).current_tile_set = tiles := by
  unfold sync_tile_set
  rw [if_pos h]
  exact ⟨rfl, rfl, rfl⟩

/-- C1 — witness for the amended theorem at a concrete input. -/
theorem c1_witness :
    (sync_tile_set [tileA] state_c1).canvas_representation
      = state_c1.canvas_representation :=
  (c1_theorem [tileA] state_c1 (by decide)).2.1

/-- C7.  Stepping with an empty tile set never commits a tile and never
indexes into the tile set: the step succeeds (no modeled panic) and
returns the resynchronized state, whose resolution grid is exactly the
input's resolution grid. -/
theorem c7_theorem (s : ImageCanvasComponent) (x y : Fin 10)
    (draws : List (Fin 4 × Nat)) :
    step [] s x y draws = some (sync_tile_set [] s) ∧
    (sync_tile_set [] s).canvas_representation = s.canvas_representation := by
  constructor
  · simp only [step]
    rw [if_pos]
    rw [sync_tile_set_empty s]
    rfl
  · exact sync_tile_set_representation [] s

/-- C8.  For a non-empty tile set, `random_tile` on the all-empty default
candidate set deterministically returns the tile at index 0, whatever the
random draws are. -/
theorem c8_theorem (p : PossibleConnections) (tiles : List TileData)
    (draws : List (Fin 4 × Nat)) (hp : p = PossibleConnections.default)
    (h : tiles ≠ []) :
    random_tile p tiles draws
      = some (tiles.get ⟨0, List.length_pos.mpr h⟩) := by
  unfold random_tile
  rw [if_pos hp]
  cases tiles with
  | nil => exact absurd rfl h
  | cons t ts => rfl

/-- C8 — witness at a concrete input. -/
theorem c8_witness :
    random_tile PossibleConnections.default [tileA] [] = some tileA :=
  c8_theorem PossibleConnections.default [tileA] [] rfl (by decide)

set_option maxRecDepth 100000 in
/-- C2 — counterexample.  In `state_c2` exactly one cell, (5,5), is
unresolved, and the seed cell (0,0) is resolved and different from it;
yet because every cell has entropy 0, no unresolved cell has entropy
strictly below the seed's, so `get_lowest_entropy` returns `none`
(reports completion) instead of `some (5,5)` as the claim demands. -/
theorem c2_counterexample :
    (rowMajorCells.countP
      (fun p => (state_c2.canvas_representation p.1 p.2).isNone)) = 1 ∧
    (state_c2.canvas_representation 0 0).isSome = true ∧
    ((0 : Fin 10), (0 : Fin 10)) ≠ ((5 : Fin 10), (5 : Fin 10)) ∧
    get_lowest_entropy state_c2 0 0 = none := by
  refine ⟨by decide, by decide, by decide, by decide⟩

/-- C2 — amended.  If exactly one cell `u` is unresolved, the seed cell
(x,y) is resolved, and additionally `u`'s entropy is strictly lower than
the seed cell's stored entropy, then selection returns `some u` (without
the strict-entropy condition the scan can return `none` instead, as the
counterexample shows). -/
theorem c2_theorem (s : ImageCanvasComponent) (u : Fin 10 × Fin 10)
    (x y : Fin 10)
    (huniq : ∀ p : Fin 10 × Fin 10,
      s.canvas_representation p.1 p.2 = none ↔ p = u)
    (hxy : (s.canvas_representation x y).isSome = true)
    (hlt : (s.canvas_connections u.1 u.2).total_len
      < (s.canvas_connections x y).total_len) :
    get_lowest_entropy s x y = some u := by
  have hu : s.canvas_representation u.1 u.2 = none := (huniq u).mpr rfl
  have hentxy : ent s (x, y) = (s.canvas_connections x y).total_len := rfl
  have hentu : ent s u = (s.canvas_connections u.1 u.2).total_len := rfl
  rcases scan_foldl_spec s rowMajorCells (x, y) with
    ⟨heq, hbound⟩ | ⟨hunres, hlt2, hbound, hsplit⟩
  · have := hbound u (mem_rowMajorCells u) hu
    rw [hentxy, hentu] at this
    omega
  · have hr : rowMajorCells.foldl (scanStep s) (x, y) = u :=
      (huniq _).mp hunres
    have hne : ¬(rowMajorCells.foldl (scanStep s) (x, y) = (x, y)
        ∧ (s.canvas_representation x y).isSome = true) := by
      intro hcon
      rw [hr] at hcon
      have hxynone : s.canvas_representation x y = none := by
        have := (huniq (x, y)).mpr hcon.1.symm
        exact this
      rw [hxynone] at hxy
      simp at hxy
    simp only [get_lowest_entropy]
    rw [if_neg hne, hr]

/-- C2 — witness for the amended theorem: in `state_c2w` the single
unresolved cell (5,5) has entropy 0 while the resolved seed (0,0) stores
entropy 1, and selection finds (5,5). -/
theorem c2_witness :
    get_lowest_entropy state_c2w 0 0 = some (5, 5) :=
  c2_theorem state_c2w (5, 5) 0 0 (by decide) (by decide) (by decide)

/-- C3.  Full characterization of `get_lowest_entropy` for every state
and every seed cell (x,y): the scan visits all cells in row-major order;
the baseline is (x,y)'s own entropy regardless of whether (x,y) is
resolved; the tracked cell is replaced only on strictly lower entropy of
an unresolved cell (so ties keep the earlier-found cell); `none` is
returned exactly when the tracked position is still (x,y) and (x,y) is
resolved; otherwise `some` of the tracked position is returned — which is
either (x,y) itself (when no unresolved cell beats the baseline), or an
unresolved global-minimum cell strictly below the baseline that strictly
beats every unresolved cell appearing before it in row-major order. -/
theorem c3_theorem (s : ImageCanvasComponent) (x y : Fin 10) :
    (get_lowest_entropy s x y = none ↔
      ((s.canvas_representation x y).isSome = true ∧
        ∀ p : Fin 10 × Fin 10, s.canvas_representation p.1 p.2 = none →
          (s.canvas_connections x y).total_len
            ≤ (s.canvas_connections p.1 p.2).total_len)) ∧
    (∀ q : Fin 10 × Fin 10, get_lowest_entropy s x y = some q →
      (q = (x, y) ∧
        ∀ p : Fin 10 × Fin 10, s.canvas_representation p.1 p.2 = none →
          (s.canvas_connections x y).total_len
            ≤ (s.canvas_connections p.1 p.2).total_len) ∨
      (s.canvas_representation q.1 q.2 = none ∧
        (s.canvas_connections q.1 q.2).total_len
          < (s.canvas_connections x y).total_len ∧
        (∀ p : Fin 10 × Fin 10, s.canvas_representation p.1 p.2 = none →
          (s.canvas_connections q.1 q.2).total_len
            ≤ (s.canvas_connections p.1 p.2).total_len) ∧
        ∃ l1 l2, rowMajorCells = l1 ++ q :: l2 ∧
          ∀ p ∈ l1, s.canvas_representation p.1 p.2 = none →
            (s.canvas_connections q.1 q.2).total_len
              < (s.canvas_connections p.1 p.2).total_len)) := by
  constructor
  · constructor
    · intro hnone
      simp only [get_lowest_entropy] at hnone
      by_cases hcond : rowMajorCells.foldl (scanStep s) (x, y) = (x, y)
          ∧ (s.canvas_representation x y).isSome = true
      · refine ⟨hcond.2, ?_⟩
        intro p hp
        rcases scan_foldl_spec s rowMajorCells (x, y) with
          ⟨_, hbound⟩ | ⟨_, hlt, _, _⟩
        · exact hbound p (mem_rowMajorCells p) hp
        · rw [hcond.1] at hlt
          exact absurd hlt (Nat.lt_irrefl _)
      · rw [if_neg hcond] at hnone
        exact absurd hnone (by simp)
    · intro hhyp
      rcases hhyp with ⟨hsome, hbound⟩
      have hfold : rowMajorCells.foldl (scanStep s) (x, y) = (x, y) := by
        rcases scan_foldl_spec s rowMajorCells (x, y) with
          ⟨heq, _⟩ | ⟨hunres, hlt, _, _⟩
        · exact heq
        · have hle : (s.canvas_connections x y).total_len
              ≤ ent s (rowMajorCells.foldl (scanStep s) (x, y)) :=
            hbound _ hunres
          have hlt' : ent s (rowMajorCells.foldl (scanStep s) (x, y))
              < (s.canvas_connections x y).total_len := hlt
          omega
      simp only [get_lowest_entropy]
      rw [if_pos ⟨hfold, hsome⟩]
  · intro q hq
    simp only [get_lowest_entropy] at hq
    by_cases hcond : rowMajorCells.foldl (scanStep s) (x, y) = (x, y)
        ∧ (s.canvas_representation x y).isSome = true
    · rw [if_pos hcond] at hq
      exact absurd hq (by simp)
    · rw [if_neg hcond] at hq
      have hfq : rowMajorCells.foldl (scanStep s) (x, y) = q :=
        Option.some.inj hq
      rcases scan_foldl_spec s rowMajorCells (x, y) with
        ⟨heq, hbound⟩ | ⟨hunres, hlt, hbound, l1, l2, hsplit, hearly⟩
      · left
        rw [heq] at hfq
        refine ⟨hfq.symm, ?_⟩
        intro p hp
        exact hbound p (mem_rowMajorCells p) hp
      · right
        rw [hfq] at hunres hlt hbound hsplit hearly
        exact ⟨hunres, hlt,
          fun p hp => hbound p (mem_rowMajorCells p) hp,
          l1, l2, hsplit, hearly⟩

/-- C3 — witness: on a fully resolved concrete state the theorem's
completion condition yields `none`. -/
theorem c3_witness : get_lowest_entropy state_c3 0 0 = none :=
  (c3_theorem state_c3 0 0).1.mpr ⟨by decide, by decide⟩

set_option maxRecDepth 100000 in
/-- C4 — counterexample.  The claim says the pair written into a
neighbor's facing facet carries the direction from the neighbor to the
collapsed cell.  Collapsing tile `tileA` (index 0) at (1,1) writes the
north neighbor (0,1)'s south facet; the direction from (0,1) to (1,1) is
South, yet the code stores `Direction::North`, the direction from (1,1)
to the neighbor. -/
theorem c4_counterexample :
    ((collapse_tile state_c4 PossibleConnections.default (1, 1) []).map
      (fun r => (r.2 0 1).south_connections))
      = some [(0, Direction.North)] ∧
    ([((0 : Nat), Direction.North)] : List TileConnection)
      ≠ [((0 : Nat), Direction.South)] := by
  refine ⟨by decide, by decide⟩

/-- C4 — amended.  After `collapse_tile` commits tile `t` at `pos`, each
of the up-to-four existing neighbors has its facet facing back at `pos`
overwritten (not merged) with exactly the singleton list containing
`t`'s index paired with the direction from `pos` toward that neighbor
(`North` for the north neighbor's south facet, and so on); and no cell
other than those neighbors has any candidate list modified. -/
theorem c4_theorem (s : ImageCanvasComponent)
    (tile_connections : PossibleConnections) (pos : Fin 10 × Fin 10)
    (draws : List (Fin 4 × Nat)) (t : TileData)
    (g' : Fin 10 → Fin 10 → PossibleConnections)
    (h : collapse_tile s tile_connections pos draws = some (t, g')) :
    (∀ q : Fin 10 × Fin 10, q.1.val + 1 = pos.1.val → q.2 = pos.2 →
      (g' q.1 q.2).south_connections = [(t.image_index, Direction.North)]) ∧
    (∀ q : Fin 10 × Fin 10, q.1.val = pos.1.val + 1 → q.2 = pos.2 →
      (g' q.1 q.2).north_connections = [(t.image_index, Direction.South)]) ∧
    (∀ q : Fin 10 × Fin 10, q.2.val + 1 = pos.2.val → q.1 = pos.1 →
      (g' q.1 q.2).east_connections = [(t.image_index, Direction.West)]) ∧
    (∀ q : Fin 10 × Fin 10, q.2.val = pos.2.val + 1 → q.1 = pos.1 →
      (g' q.1 q.2).west_connections = [(t.image_index, Direction.East)]) ∧
    (∀ q : Fin 10 × Fin 10,
      ¬(q.1.val + 1 = pos.1.val ∧ q.2 = pos.2) →
      ¬(q.1.val = pos.1.val + 1 ∧ q.2 = pos.2) →
      ¬(q.2.val + 1 = pos.2.val ∧ q.1 = pos.1) →
      ¬(q.2.val = pos.2.val + 1 ∧ q.1 = pos.1) →
      g' q.1 q.2 = s.canvas_connections q.1 q.2) := by
  have hg := collapse_tile_some s tile_connections pos draws t g' h
  subst hg
  refine ⟨?_, ?_, ?_, ?_, ?_⟩
  · intro q h1 h2
    rw [narrow_neighbors_north _ _ _ _ h1 h2]
  · intro q h1 h2
    rw [narrow_neighbors_south _ _ _ _ h1 h2]
  · intro q h1 h2
    rw [narrow_neighbors_west _ _ _ _ h1 h2]
  · intro q h1 h2
    rw [narrow_neighbors_east _ _ _ _ h1 h2]
  · intro q h1 h2 h3 h4
    exact narrow_neighbors_frame _ _ _ _ h1 h2 h3 h4

/-- C4 — witness at a concrete collapse: the north neighbor (0,1) of the
collapse at (1,1) receives exactly `[(0, North)]` on its south facet. -/
theorem c4_witness :
    (grid_c4 0 1).south_connections = [(tileA.image_index, Direction.North)] :=
  (c4_theorem state_c4 PossibleConnections.default (1, 1) [] tileA grid_c4
    rfl).1 (0, 1) (by decide) (by decide)

/-- C5.  After any successful collapse, each existing neighbor's
post-propagation candidate-list length on the narrowed facet is exactly
1 — never 0, never greater — whatever it held before. -/
theorem c5_theorem (s : ImageCanvasComponent)
    (tile_connections : PossibleConnections) (pos : Fin 10 × Fin 10)
    (draws : List (Fin 4 × Nat)) (t : TileData)
    (g' : Fin 10 → Fin 10 → PossibleConnections)
    (h : collapse_tile s tile_connections pos draws = some (t, g')) :
    (∀ q : Fin 10 × Fin 10, q.1.val + 1 = pos.1.val → q.2 = pos.2 →
      (g' q.1 q.2).south_connections.length = 1) ∧
    (∀ q : Fin 10 × Fin 10, q.1.val = pos.1.val + 1 → q.2 = pos.2 →
      (g' q.1 q.2).north_connections.length = 1) ∧
    (∀ q : Fin 10 × Fin 10, q.2.val + 1 = pos.2.val → q.1 = pos.1 →
      (g' q.1 q.2).east_connections.length = 1) ∧
    (∀ q : Fin 10 × Fin 10, q.2.val = pos.2.val + 1 → q.1 = pos.1 →
      (g' q.1 q.2).west_connections.length = 1) := by
  have hg := collapse_tile_some s tile_connections pos draws t g' h
  subst hg
  refine ⟨?_, ?_, ?_, ?_⟩
  · intro q h1 h2
    rw [narrow_neighbors_north _ _ _ _ h1 h2]
    rfl
  · intro q h1 h2
    rw [narrow_neighbors_south _ _ _ _ h1 h2]
    rfl
  · intro q h1 h2
    rw [narrow_neighbors_west _ _ _ _ h1 h2]
    rfl
  · intro q h1 h2
    rw [narrow_neighbors_east _ _ _ _ h1 h2]
    rfl

/-- C5 — witness: the four neighbors of the concrete collapse at (1,1)
each hold exactly one entry on the narrowed facet. -/
theorem c5_witness :
    (grid_c4 0 1).south_connections.length = 1 :=
  (c5_theorem state_c4 PossibleConnections.default (1, 1) [] tileA grid_c4
    rfl).1 (0, 1) (by decide) (by decide)

/-- C10.  `collapse_tile` at `pos` never writes the collapsed cell's own
candidate set: the cell's entry in the returned grid equals its entry in
the input grid, and more generally every cell that is not one of the four
neighbors is untouched. -/
theorem c10_theorem (s : ImageCanvasComponent)
    (tile_connections : PossibleConnections) (pos : Fin 10 × Fin 10)
    (draws : List (Fin 4 × Nat)) (t : TileData)
    (g' : Fin 10 → Fin 10 → PossibleConnections)
    (h : collapse_tile s tile_connections pos draws = some (t, g')) :
    g' pos.1 pos.2 = s.canvas_connections pos.1 pos.2 ∧
    (∀ q : Fin 10 × Fin 10,
      ¬(q.1.val + 1 = pos.1.val ∧ q.2 = pos.2) →
      ¬(q.1.val = pos.1.val + 1 ∧ q.2 = pos.2) →
      ¬(q.2.val + 1 = pos.2.val ∧ q.1 = pos.1) →
      ¬(q.2.val = pos.2.val + 1 ∧ q.1 = pos.1) →
      g' q.1 q.2 = s.canvas_connections q.1 q.2) := by
  have hg := collapse_tile_some s tile_connections pos draws t g' h
  subst hg
  constructor
  · refine narrow_neighbors_frame _ _ _ _ ?_ ?_ ?_ ?_
    · intro hcon
      have := hcon.1
      omega
    · intro hcon
      have := hcon.1
      omega
    · intro hcon
      have := hcon.1
      omega
    · intro hcon
      have := hcon.1
      omega
  · intro q h1 h2 h3 h4
    exact narrow_neighbors_frame _ _ _ _ h1 h2 h3 h4

/-- C10 — witness: the collapsed cell (1,1) of the concrete collapse
keeps its pre-commit candidate set. -/
theorem c10_witness :
    grid_c4 1 1 = state_c4.canvas_connections 1 1 :=
  (c10_theorem state_c4 PossibleConnections.default (1, 1) [] tileA grid_c4
    rfl).1

/-- C6.  A successful step changes the number of resolved cells by
exactly 0 or 1 (never decreasing it); selection never returns an
already-resolved cell; and every committed tile survives the step
unchanged — no commit is ever retracted or overwritten. -/
theorem c6_theorem (tiles : List TileData) (s : ImageCanvasComponent)
    (x y : Fin 10) (draws : List (Fin 4 × Nat)) (s' : ImageCanvasComponent)
    (hstep : step tiles s x y draws = some s') :
    (resolvedCount s' = resolvedCount s ∨
      resolvedCount s' = resolvedCount s + 1) ∧
    (∀ p : Fin 10 × Fin 10, get_lowest_entropy s x y = some p →
      s.canvas_representation p.1 p.2 = none) ∧
    (∀ (p : Fin 10 × Fin 10) (t' : TileData),
      s.canvas_representation p.1 p.2 = some t' →
      s'.canvas_representation p.1 p.2 = some t') := by
  have hsync := sync_tile_set_representation tiles s
  rcases step_cases tiles s x y draws s' hstep with
    heq | ⟨pos, result, hsel, hc, heq⟩
  · subst heq
    refine ⟨Or.inl ?_, ?_, ?_⟩
    · unfold resolvedCount
      rw [hsync]
    · intro p hp
      exact get_lowest_entropy_some_unres s x y p hp
    · intro p t' hp
      rw [hsync]
      exact hp
  · have hposnone : s.canvas_representation pos.1 pos.2 = none := by
      have hres := get_lowest_entropy_some_unres (sync_tile_set tiles s) x y pos hsel
      rwa [hsync] at hres
    subst heq
    refine ⟨Or.inr ?_, ?_, ?_⟩
    · show countRep (updateCell (sync_tile_set tiles s).canvas_representation
          pos.1 pos.2 (some result.1)) = countRep s.canvas_representation + 1
      rw [hsync]
      exact countRep_update s.canvas_representation pos result.1 hposnone
    · intro p hp
      exact get_lowest_entropy_some_unres s x y p hp
    · intro p t' hp
      show updateCell (sync_tile_set tiles s).canvas_representation
        pos.1 pos.2 (some result.1) p.1 p.2 = some t'
      rw [hsync]
      unfold updateCell
      by_cases hpq : p.1 = pos.1 ∧ p.2 = pos.2
      · have hp' : p = pos := Prod.ext hpq.1 hpq.2
        rw [hp'] at hp
        rw [hposnone] at hp
        exact absurd hp (by simp)
      · rw [if_neg hpq]
        exact hp

set_option maxRecDepth 1000000 in
/-- C6 — witness: one concrete step from the fresh state over `[tileA]`
commits exactly one cell. -/
theorem c6_witness :
    resolvedCount state_c6 = resolvedCount initial_component ∨
    resolvedCount state_c6 = resolvedCount initial_component + 1 :=
  (c6_theorem [tileA] initial_component 0 0 [] state_c6 rfl).1

/-- C9 — counterexample.  For the tile set `[tileA]` (one tile, all
adjacency lists empty) every direction union is empty, so the corner
(0,0) and the interior cell (5,5) both have entropy 0: the corner does
NOT have strictly fewer candidate entries than the interior cell. -/
theorem c9_counterexample :
    ¬((fill_representation_array [tileA] 0 0).total_len
      < (fill_representation_array [tileA] 5 5).total_len) := by
  decide

/-- C9 — amended.  Entropy is always ≥ 0, and when every direction union
of the tile set is non-empty, every edge or corner cell has strictly
fewer initial candidate entries than every interior cell; with an empty
union in some direction the comparison can degrade to equality, as the
counterexample shows. -/
theorem c9_theorem (tiles : List TileData)
    (hN : all_north_connections tiles ≠ [])
    (hS : all_south_connections tiles ≠ [])
    (hE : all_east_connections tiles ≠ [])
    (hW : all_west_connections tiles ≠ []) :
    (∀ r c : Fin 10, 0 ≤ (fill_representation_array tiles r c).total_len) ∧
    (∀ r c r' c' : Fin 10,
      (r.val = 0 ∨ r.val = 9 ∨ c.val = 0 ∨ c.val = 9) →
      (r'.val ≠ 0 ∧ r'.val ≠ 9 ∧ c'.val ≠ 0 ∧ c'.val ≠ 9) →
      (fill_representation_array tiles r c).total_len
        < (fill_representation_array tiles r' c').total_len) := by
  have hN' : 0 < (all_north_connections tiles).length := List.length_pos.mpr hN
  have hS' : 0 < (all_south_connections tiles).length := List.length_pos.mpr hS
  have hE' : 0 < (all_east_connections tiles).length := List.length_pos.mpr hE
  have hW' : 0 < (all_west_connections tiles).length := List.length_pos.mpr hW
  constructor
  · intro r c
    exact Nat.zero_le _
  · intro r c r' c' hedge hint
    rw [fill_total_len, fill_total_len]
    rcases hint with ⟨h1, h2, h3, h4⟩
    rw [if_pos h1, if_pos h2, if_pos h4, if_pos h3]
    rcases hedge with h | h | h | h <;> split_ifs <;> omega

/-- C9 — witness: with the one-tile set `tileC` (every union non-empty)
the corner (0,0) has strictly smaller entropy than the interior (5,5). -/
theorem c9_witness :
    (fill_representation_array [tileC] 0 0).total_len
      < (fill_representation_array [tileC] 5 5).total_len :=
  (c9_theorem [tileC] (by decide) (by decide) (by decide) (by decide)).2
    0 0 5 5 (by decide) (by decide)
